import Mathlib

/-!
# Verification of the subtitle-selection and cue-parsing core of
# n8n-nodes-ytube-transcript-wlang-v2

Shallow embedding of the pure core of
`src/nodes/YtubeTranscriptWlang/YtubeTranscriptWlang.node.ts`:
`timeToSeconds`, `parseTranscriptContent`, `findBestSubtitle`,
`getAvailableLanguages`, `normalizeVideoUrl`, `extractVideoId`, and the
pure control-flow skeleton of `execute` for a single input item.

Modelling conventions:
* JavaScript strings are modelled as `List Char`; the JS string methods
  used by the source (`split`, `trim`, `includes`, `replace` with the
  regex `/<[^>]*>/g`) are implemented here as structural recursions with
  the same semantics.
* JavaScript numbers are modelled exactly by `JSNum`: a rational, `NaN`,
  or a signed infinity.  The source only adds, subtracts, multiplies by
  integer constants, and rounds with `toFixed(3)`; on every value the
  source can produce from decimal timestamp strings these operations are
  exact, so the rational model agrees with IEEE doubles there.
* `Record<string, any[]>` track maps are modelled as association lists
  from `String` keys to lists of opaque track descriptors (`TrackMap α`);
  JS object-key insertion order is the list order, and property lookup is
  the first entry with the key.
-/

namespace YT

/-- Whitespace test used for the JS `trim` / number-conversion models
(space, tab, carriage return, line feed — the characters that occur in
subtitle files). -/
def isWs (c : Char) : Bool := c = ' ' || c = '\t' || c = '\r' || c = '\n'

/-- JS `String.prototype.trim`: remove leading and trailing whitespace. -/
def trimL (s : List Char) : List Char :=
  ((s.dropWhile isWs).reverse.dropWhile isWs).reverse

/-- JS `split` with a single-character separator (used for `'\n'` and
`':'`): `"".split(c) = [""]`, separators at the ends produce empty
pieces. -/
def splitCh (sep : Char) : List Char → List (List Char)
  | [] => [[]]
  | c :: rest =>
    if c = sep then
      [] :: splitCh sep rest
    else
      match splitCh sep rest with
      | r :: rs => (c :: r) :: rs
      | [] => [[c]]

/-- JS `split(' --> ')`: split at each leftmost non-overlapping
occurrence of the five-character separator `" --> "`. -/
def splitArrow : List Char → List (List Char)
  | ' ' :: '-' :: '-' :: '>' :: ' ' :: rest => [] :: splitArrow rest
  | c :: rest =>
    match splitArrow rest with
    | r :: rs => (c :: r) :: rs
    | [] => [[c]]
  | [] => [[]]

/-- JS `includes`: substring containment (the empty needle is always
contained). -/
def containsSub (needle : List Char) : List Char → Bool
  | [] => needle.isEmpty
  | s@(_ :: rest) => needle.isPrefixOf s || containsSub needle rest

/-- One step of the model of `replace(/<[^>]*>/g, '')`.  The second
argument is `none` outside a candidate tag and `some buf` after an
as-yet-unclosed `'<'`, with `buf` the characters read since it (reversed).
The regex deletes from each `'<'` through the first following `'>'`
(`[^>]*` crosses over further `'<'` characters); a `'<'` with no later
`'>'` matches nothing and stays, as do all characters after it. -/
def stripTagsGo : List Char → Option (List Char) → List Char
  | [], none => []
  | [], some buf => '<' :: buf.reverse
  | c :: rest, none =>
    if c = '<' then stripTagsGo rest (some []) else c :: stripTagsGo rest none
  | c :: rest, some buf =>
    if c = '>' then stripTagsGo rest none else stripTagsGo rest (some (c :: buf))

/-- JS `line.replace(/<[^>]*>/g, '')`. -/
def stripTags (s : List Char) : List Char := stripTagsGo s none

/-!
Rational arithmetic.  Core `Rat.add`/`Rat.mul`/`Rat.div` do not reduce
inside the kernel, so concrete runs of the embedded code could not be
checked by `decide`.  The operations below are built on `Rat.divInt`
(which does reduce) and are proved equal to the ordinary field
operations on `ℚ` (`qadd_eq`, `qmul_eq`, `qdiv_eq`), so every definition
using them computes exactly the usual rational arithmetic.
-/

/-- Kernel-computable addition on `ℚ` (equal to `+`, see `qadd_eq`). -/
def qadd (a b : ℚ) : ℚ := Rat.divInt (a.num * b.den + b.num * a.den) (a.den * b.den)

/-- Kernel-computable multiplication on `ℚ` (equal to `*`, see `qmul_eq`). -/
def qmul (a b : ℚ) : ℚ := Rat.divInt (a.num * b.num) (a.den * b.den)

/-- Kernel-computable division on `ℚ` (equal to `/`, see `qdiv_eq`). -/
def qdiv (a b : ℚ) : ℚ := Rat.divInt (a.num * b.den) (a.den * b.num)

/-- Kernel-computable subtraction on `ℚ`. -/
def qsub (a b : ℚ) : ℚ := qadd a (-b)

/-- Kernel-computable embedding of `ℕ` into `ℚ`. -/
def qnat (n : ℕ) : ℚ := Rat.divInt n 1

/-- Kernel-computable embedding of `ℤ` into `ℚ`. -/
def qint (n : ℤ) : ℚ := Rat.divInt n 1

/-- JavaScript number model: a finite value (exact rational), `NaN`, or a
signed infinity (`inf true` = `+Infinity`). -/
inductive JSNum where
  | num : ℚ → JSNum
  | nan : JSNum
  | inf : Bool → JSNum
deriving DecidableEq, Repr

namespace JSNum

/-- JS addition. -/
def add : JSNum → JSNum → JSNum
  | num a, num b => num (qadd a b)
  | nan, _ => nan
  | _, nan => nan
  | inf b, num _ => inf b
  | num _, inf b => inf b
  | inf a, inf b => if a = b then inf a else nan

/-- JS negation. -/
def neg : JSNum → JSNum
  | num a => num (-a)
  | nan => nan
  | inf b => inf (!b)

/-- JS subtraction. -/
def sub (x y : JSNum) : JSNum := add x (neg y)

/-- JS multiplication (only used with nonzero integer constants in the
source, but defined in full: `Infinity * 0` is `NaN`). -/
def mul : JSNum → JSNum → JSNum
  | num a, num b => num (qmul a b)
  | nan, _ => nan
  | _, nan => nan
  | inf b, num q => if q = 0 then nan else inf (b = (0 < q))
  | num q, inf b => if q = 0 then nan else inf (b = (0 < q))
  | inf a, inf b => inf (a = b)

end JSNum

/-- The composite `+x.toFixed(3)` from the source: round a finite value
to 3 decimal places (ties toward `+∞`, as `toFixed` specifies for the
numerator choice), and re-parse; `NaN` and the infinities round-trip
through their string forms unchanged. -/
def jsToFixed3 : JSNum → JSNum
  | JSNum.num q =>
    JSNum.num (qdiv (qint (Rat.floor (qadd (qmul q (qnat 1000)) (Rat.divInt 1 2)))) (qnat 1000))
  | JSNum.nan => JSNum.nan
  | JSNum.inf b => JSNum.inf b

/-- Value of a list of decimal digits. -/
def digitsToNat (ds : List Char) : ℕ :=
  ds.foldl (fun a c => 10 * a + (c.toNat - '0'.toNat)) 0

/-- Split an optional leading sign: returns `(negative?, rest)`. -/
def splitSign : List Char → Bool × List Char
  | '+' :: rest => (false, rest)
  | '-' :: rest => (true, rest)
  | s => (false, s)

/-- Decimal significand of a JS number literal prefix:
`digits [. digits]` with at least one digit overall (`"5."`, `".5"`,
`"5.5"`, `"5"`); returns the value and the unconsumed rest, or `none`
when no digit is present. -/
def parseSignificand (s : List Char) : Option (ℚ × List Char) :=
  let ds := s.takeWhile Char.isDigit
  let r1 := s.dropWhile Char.isDigit
  match r1 with
  | '.' :: r2 =>
    let fs := r2.takeWhile Char.isDigit
    let r3 := r2.dropWhile Char.isDigit
    if ds.isEmpty && fs.isEmpty then none
    else some (qadd (qnat (digitsToNat ds)) (qdiv (qnat (digitsToNat fs)) (qnat (10 ^ fs.length))), r3)
  | _ =>
    if ds.isEmpty then none
    else some (qnat (digitsToNat ds), r1)

/-- Exponent suffix `e|E [sign] digits`; consumed only when at least one
exponent digit follows (JS `parseFloat("5e") = 5`).  Returns the signed
exponent and the unconsumed rest. -/
def parseExponent (s : List Char) : Option (ℤ × List Char) :=
  match s with
  | c :: r1 =>
    if c = 'e' || c = 'E' then
      let (eneg, r2) := splitSign r1
      let eds := r2.takeWhile Char.isDigit
      let r3 := r2.dropWhile Char.isDigit
      if eds.isEmpty then none
      else some (if eneg then -(digitsToNat eds : ℤ) else (digitsToNat eds : ℤ), r3)
    else none
  | [] => none

/-- Apply a decimal exponent to a rational (`q * 10 ^ e`). -/
def applyExp (q : ℚ) (e : ℤ) : ℚ :=
  if 0 ≤ e then qmul q (qnat (10 ^ e.toNat)) else qdiv q (qnat (10 ^ (-e).toNat))

/-- JS `parseFloat`: skip leading whitespace, then read the longest
prefix of the form `[sign] (Infinity | digits[.digits][exponent])`;
`NaN` when no such prefix exists.  Trailing garbage is ignored. -/
def parseFloat (s : List Char) : JSNum :=
  let t := s.dropWhile isWs
  let (sgn, r) := splitSign t
  if ("Infinity".data).isPrefixOf r then JSNum.inf (!sgn)
  else
    match parseSignificand r with
    | none => JSNum.nan
    | some (v, rest) =>
      let v' :=
        match parseExponent rest with
        | some (e, _) => applyExp v e
        | none => v
      JSNum.num (if sgn then -v' else v')

/-- Value of one hexadecimal digit character (`48`, `87`, `55` are the
code points of `'0'`, and of `'a'` and `'A'` shifted by the 10 their
ranges start at). -/
def hexDigitVal (c : Char) : Option ℕ :=
  if c.isDigit then some (c.toNat - 48)
  else if 'a' ≤ c ∧ c ≤ 'f' then some (c.toNat - 87)
  else if 'A' ≤ c ∧ c ≤ 'F' then some (c.toNat - 55)
  else none

/-- Hex/octal/binary digit value for radix-prefixed `Number` literals. -/
def radixDigit (radix : ℕ) (c : Char) : Option ℕ :=
  match hexDigitVal c with
  | some n => if n < radix then some n else none
  | none => none

/-- Value of a radix-prefixed digit string, or `none` if empty or if any
character is not a digit of the radix. -/
def radixValue (radix : ℕ) : List Char → Option ℕ
  | [] => none
  | [c] => radixDigit radix c
  | c :: rest =>
    match radixDigit radix c, radixValue radix rest with
    | some d, some v => some (radix ^ rest.length * d + v)
    | _, _ => none

/-- JS `Number(string)` (the unary `+` coercion used on the hour and
minute fields): trim whitespace; empty → `0`; `[sign] Infinity`;
unsigned `0x`/`0o`/`0b` radix literals; otherwise a decimal literal with
optional exponent that must consume the whole string; anything else is
`NaN`. -/
def toNumber (s : List Char) : JSNum :=
  let t := trimL s
  if t.isEmpty then JSNum.num 0
  else
    match t with
    | '0' :: x :: rest =>
      if x = 'x' || x = 'X' then
        match radixValue 16 rest with
        | some n => JSNum.num (qnat n)
        | none => JSNum.nan
      else if x = 'o' || x = 'O' then
        match radixValue 8 rest with
        | some n => JSNum.num (qnat n)
        | none => JSNum.nan
      else if x = 'b' || x = 'B' then
        match radixValue 2 rest with
        | some n => JSNum.num (qnat n)
        | none => JSNum.nan
      else toNumberDecimal t
    | _ => toNumberDecimal t
where
  /-- Signed decimal (or `Infinity`) literal that must consume the whole
  string. -/
  toNumberDecimal (t : List Char) : JSNum :=
    let (sgn, r) := splitSign t
    if r = "Infinity".data then JSNum.inf (!sgn)
    else
      match parseSignificand r with
      | none => JSNum.nan
      | some (v, rest) =>
        match parseExponent rest with
        | some (e, []) => JSNum.num (if sgn then -(applyExp v e) else applyExp v e)
        | some (_, _ :: _) => JSNum.nan
        | none =>
          if rest.isEmpty then JSNum.num (if sgn then -v else v)
          else JSNum.nan

/-- `timeToSeconds` (source lines 501–514): split on `':'`;
three fields → `(+h)*3600 + (+m)*60 + parseFloat(s)`;
two fields → `(+m)*60 + parseFloat(s)`;
otherwise `parseFloat` of the whole string. -/
def timeToSeconds (timeString : List Char) : JSNum :=
  let parts := splitCh ':' timeString
  if parts.length = 3 then
    let h := parts.getD 0 []
    let m := parts.getD 1 []
    let s := parts.getD 2 []
    JSNum.add (JSNum.add (JSNum.mul (toNumber h) (JSNum.num (qnat 3600)))
        (JSNum.mul (toNumber m) (JSNum.num (qnat 60))))
      (parseFloat s)
  else if parts.length = 2 then
    let m := parts.getD 0 []
    let s := parts.getD 1 []
    JSNum.add (JSNum.mul (toNumber m) (JSNum.num (qnat 60))) (parseFloat s)
  else
    parseFloat timeString

/-- `TranscriptItem` (source lines 18–22): `text` is a JS string,
`start`/`duration` JS numbers. -/
structure TranscriptItem where
  text : List Char
  start : JSNum
  duration : JSNum
deriving DecidableEq, Repr

/-- Start of a cue (source lines 474–477), given the trimmed timing
line: `const [startTime, endTime] = line.split(' --> ')` destructures the
first two pieces of the split; `start = timeToSeconds(startTime)`,
`duration = timeToSeconds(endTime) - start`; the accumulated `text`
starts empty.  (The guard `line.includes(' --> ')` guarantees the split
has at least two pieces, so the `getD` defaults are never used.) -/
def startCueOf (line : List Char) : JSNum × JSNum × List Char :=
  let parts := splitArrow line
  let startTime := parts.getD 0 []
  let endTime := parts.getD 1 []
  let start := timeToSeconds startTime
  let «end» := timeToSeconds endTime
  (start, JSNum.sub «end» start, [])

/-- Emission of a pending cue (source lines 488–494): push an item only
when the accumulated text is non-empty after trimming; `start` and
`duration` go through `+x.toFixed(3)`. -/
def flushCue : JSNum × JSNum × List Char → List TranscriptItem
  | (start, duration, text) =>
    if (trimL text).isEmpty then []
    else [⟨trimL text, jsToFixed3 start, jsToFixed3 duration⟩]

/-- One line of the scan in `parseTranscriptContent` (source lines
471–496).  The loop walks an index `i` over the lines; inside a cue it
accumulates text lines while `lines[i].trim() && !lines[i].includes(' --> ')`,
then steps back one line (`i--`) so the stopping line is re-examined by
the outer loop.  That control flow is re-expressed here as state passing:
the state is `none` between cues and `some (start, duration, textAcc)`
inside one; a stopping line first flushes the pending cue and is then
handled exactly as a line seen between cues. -/
def stepLine (acc : List TranscriptItem × Option (JSNum × JSNum × List Char))
    (line : List Char) : List TranscriptItem × Option (JSNum × JSNum × List Char) :=
  match acc with
  | (items, none) =>
    if containsSub " --> ".data (trimL line) then
      (items, some (startCueOf (trimL line)))
    else
      (items, none)
  | (items, some (start, duration, text)) =>
    if ¬(trimL line).isEmpty ∧ ¬containsSub " --> ".data line then
      let clean := trimL (stripTags line)
      (items, some (start, duration, if clean.isEmpty then text else text ++ clean ++ [' ']))
    else
      let items' := items ++ flushCue (start, duration, text)
      if containsSub " --> ".data (trimL line) then
        (items', some (startCueOf (trimL line)))
      else
        (items', none)

/-- `parseTranscriptContent` (source lines 467–499): split on `'\n'`,
scan the lines, and flush the final pending cue (the inner `while` also
stops at end of input, after which the push still runs). -/
def parseTranscriptContent (content : List Char) : List TranscriptItem :=
  let lines := splitCh '\n' content
  let (items, st) := lines.foldl stepLine ([], none)
  match st with
  | some cue => items ++ flushCue cue
  | none => items

/-- A `Record<string, any[]>` track map: language code → list of opaque
track descriptors, in object-key insertion order. -/
abbrev TrackMap (α : Type) : Type := List (String × List α)

/-- JS property read `m[k]`: the value at the first matching key, or
`undefined` (`none`). -/
def jsLookup {α : Type} (m : TrackMap α) (k : String) : Option (List α) :=
  (List.find? (fun p => p.1 = k) m).map (fun p => p.2)

/-- Truthiness of `m[k]?.length`: true exactly when the key is present
with a non-empty list (`undefined?.length` is `undefined`, falsy; `0` is
falsy). -/
def truthyLen {α : Type} : Option (List α) → Bool
  | some l => !l.isEmpty
  | none => false

/-- JS `a || b` where `a` is an array or `undefined`: an array (even an
empty one) is truthy. -/
def jsOr {α : Type} (a b : Option (List α)) : Option (List α) :=
  match a with
  | some x => some x
  | none => b

/-- The variant list of `findBestSubtitle` (source line 362). -/
def langVariants (lang : String) : List String :=
  [lang, lang ++ "_US", lang ++ "-US", lang ++ ".US"]

/-- Result shape of `findBestSubtitle` (source line 361). -/
structure SubtitleChoice (α : Type) where
  selectedSubtitle : Option (List α)
  isManualSubtitle : Bool
deriving DecidableEq, Repr

/-- First loop of `findBestSubtitle` (source lines 364–373): for each
variant in order, if `preferManual && subtitles[v]?.length` select the
manual track; `else if !preferManual && (subtitles[v]?.length ||
autoCaptions[v]?.length)` select `subtitles[v] || autoCaptions[v]` with
`isManualSubtitle = !!subtitles[v]`. -/
def findPass1 {α : Type} (subtitles autoCaptions : TrackMap α) (preferManual : Bool) :
    List String → Option (SubtitleChoice α)
  | [] => none
  | v :: rest =>
    if preferManual && truthyLen (jsLookup subtitles v) then
      some ⟨jsLookup subtitles v, true⟩
    else if !preferManual && (truthyLen (jsLookup subtitles v) || truthyLen (jsLookup autoCaptions v)) then
      some ⟨jsOr (jsLookup subtitles v) (jsLookup autoCaptions v), (jsLookup subtitles v).isSome⟩
    else
      findPass1 subtitles autoCaptions preferManual rest

/-- Fallback loop of `findBestSubtitle` (source lines 376–383): first
variant with `subtitles[v]?.length || autoCaptions[v]?.length`, selecting
`subtitles[v] || autoCaptions[v]` with `isManualSubtitle = !!subtitles[v]`. -/
def findPass2 {α : Type} (subtitles autoCaptions : TrackMap α) :
    List String → Option (SubtitleChoice α)
  | [] => none
  | v :: rest =>
    if truthyLen (jsLookup subtitles v) || truthyLen (jsLookup autoCaptions v) then
      some ⟨jsOr (jsLookup subtitles v) (jsLookup autoCaptions v), (jsLookup subtitles v).isSome⟩
    else
      findPass2 subtitles autoCaptions rest

/-- `findBestSubtitle` (source lines 356–386). -/
def findBestSubtitle {α : Type} (subtitles autoCaptions : TrackMap α)
    (lang : String) (preferManual : Bool) : SubtitleChoice α :=
  match findPass1 subtitles autoCaptions preferManual (langVariants lang) with
  | some c => c
  | none =>
    match findPass2 subtitles autoCaptions (langVariants lang) with
    | some c => c
    | none => ⟨none, false⟩

/-- Join a list of strings with `", "` (JS `Array.prototype.join(', ')`). -/
def joinComma : List String → String
  | [] => ""
  | [x] => x
  | x :: rest => x ++ ", " ++ joinComma rest

/-- `getAvailableLanguages` (source lines 333–336): the keys of the
manual map followed by the keys of the auto map, joined with `", "`, or
`"none"` when both maps are empty. -/
def getAvailableLanguages {α : Type} (subtitles autoCaptions : TrackMap α) : String :=
  let allLangs := subtitles.map (fun p => p.1) ++ autoCaptions.map (fun p => p.1)
  if allLangs.length > 0 then joinComma allLangs else "none"

/-- `normalizeVideoUrl` (source lines 318–323). -/
def normalizeVideoUrl (videoId : List Char) : List Char :=
  if containsSub "youtube.com".data videoId || containsSub "youtu.be".data videoId then
    videoId
  else
    "https://www.youtube.com/watch?v=".data ++ videoId

/-- Identifier-character class of the regex capture `[a-zA-Z0-9_-]`. -/
def isIdChar (c : Char) : Bool := c.isAlpha || c.isDigit || c = '_' || c = '-'

/-- At one position, try the regex alternatives
`youtube\.com\/watch\?v=` and `youtu\.be\/` followed by a non-empty run
of identifier characters; return the captured run. -/
def matchIdAfter (pre : List Char) (s : List Char) : Option (List Char) :=
  if pre.isPrefixOf s then
    let run := (s.drop pre.length).takeWhile isIdChar
    if run.isEmpty then none else some run
  else none

/-- Left-to-right scan of the regex
`/(?:youtube\.com\/watch\?v=|youtu\.be\/)([a-zA-Z0-9_-]+)/`: the first
position where either alternative matches yields the capture. -/
def scanForId : List Char → Option (List Char)
  | [] => none
  | s@(_ :: rest) =>
    match matchIdAfter "youtube.com/watch?v=".data s with
    | some r => some r
    | none =>
      match matchIdAfter "youtu.be/".data s with
      | some r => some r
      | none => scanForId rest

/-- `extractVideoId` (source lines 325–331): inputs containing a domain
marker go through the regex (unchanged when it fails to match); bare
inputs are returned unchanged. -/
def extractVideoId (videoInput : List Char) : List Char :=
  if containsSub "youtube.com".data videoInput || containsSub "youtu.be".data videoInput then
    match scanForId videoInput with
    | some m => m
    | none => videoInput
  else videoInput

/-- The slice of yt-dlp metadata the core inspects (source lines 24–36
restricted to the fields the claims are about): the manual and automatic
track maps. -/
structure VideoMeta (α : Type) where
  subtitles : TrackMap α
  automatic_captions : TrackMap α

/-- Output format option (source lines 80–97). -/
inductive OutputFormat where
  | structured
  | plainText
  | both
deriving DecidableEq, Repr

/-- The per-item node parameters read at source lines 181–187 that the
pure control flow depends on. -/
structure ItemParams where
  videoId : List Char
  lang : String
  preferManual : Bool
  outputFormat : OutputFormat
deriving Repr

/-- Join JS strings with a single space (`array.join(' ')`). -/
def joinSpace : List (List Char) → List Char
  | [] => []
  | [x] => x
  | x :: rest => x ++ ' ' :: joinSpace rest

/-- Result object built at source lines 254–269 (metadata extraction,
which no claim touches, is omitted). -/
structure ResultObj where
  youtubeId : List Char
  videoUrl : List Char
  language : String
  subtitleType : String
  transcriptLength : ℕ
  transcript : Option (List TranscriptItem)
  transcriptText : Option (List Char)
deriving Repr

/-- The per-item control flow of `execute` (source lines 189–274) with
the two collaborators (yt-dlp metadata fetch and subtitle download)
passed in as oracles.  The order matches the source: the blank-video
check runs before anything else; a failed metadata fetch propagates; a
null selection raises the no-transcript message of line 237; otherwise
the subtitle text is fetched, parsed, and assembled.  (The source may
invoke `getVideoMetadata` once or twice — lines 217–222 — but always
with the same arguments, so a single oracle call models it.) -/
def executeItem {α : Type} (getMeta : List Char → Except String (VideoMeta α))
    (fetchSubs : List Char → String → Bool → Except String (List Char))
    (p : ItemParams) : Except String ResultObj :=
  if (trimL p.videoId).isEmpty then
    Except.error "The video ID/URL parameter is empty."
  else
    let videoUrl := normalizeVideoUrl p.videoId
    match getMeta videoUrl with
    | Except.error e => Except.error e
    | Except.ok meta =>
      let subtitles := meta.subtitles
      let autoCaptions := meta.automatic_captions
      let choice := findBestSubtitle subtitles autoCaptions p.lang p.preferManual
      if choice.selectedSubtitle.isNone then
        Except.error ("No transcript found for this video with language \"" ++ p.lang
          ++ "\". Available languages: " ++ getAvailableLanguages subtitles autoCaptions)
      else
        match fetchSubs videoUrl p.lang choice.isManualSubtitle with
        | Except.error e => Except.error e
        | Except.ok raw =>
          let t := parseTranscriptContent raw
          Except.ok
            { youtubeId := extractVideoId p.videoId
              videoUrl := videoUrl
              language := p.lang
              subtitleType := if choice.isManualSubtitle then "manual" else "auto-generated"
              transcriptLength := t.length
              transcript :=
                if p.outputFormat = OutputFormat.structured ∨ p.outputFormat = OutputFormat.both then
                  some t
                else none
              transcriptText :=
                if p.outputFormat = OutputFormat.plainText ∨ p.outputFormat = OutputFormat.both then
                  some (joinSpace (t.map (fun it => it.text)))
                else none }

/-- Well-formedness of a track map per the spec (§3): every entry's
track list is non-empty. -/
abbrev WFTrackMap {α : Type} (m : TrackMap α) : Prop := ∀ p ∈ m, p.2 ≠ []

/-- The Language Matcher written from the spec's words (§4.3), for
comparison with `findBestSubtitle`: try the variants in their fixed
order; pass 1 respects `preferManual` (manual only when it is set,
either map when it is not, manual first); pass 2 runs only when pass 1
found nothing, ignores the preference, and takes the first variant
present in either map, manual preferred over automatic.  The result is
the variant used and whether the track is manual. -/
def specSelectTrack {α : Type} (sub auto : TrackMap α) (lang : String) (pm : Bool) :
    Option (String × Bool) :=
  match (langVariants lang).find? (fun v => cond pm (truthyLen (jsLookup sub v))
      (truthyLen (jsLookup sub v) || truthyLen (jsLookup auto v))) with
  | some v => some (v, cond pm true (truthyLen (jsLookup sub v)))
  | none =>
    match (langVariants lang).find? (fun v => truthyLen (jsLookup sub v) || truthyLen (jsLookup auto v)) with
    | some v => some (v, truthyLen (jsLookup sub v))
    | none => none

/-!
## Supporting lemmas
-/

theorem qadd_eq (a b : ℚ) : qadd a b = a + b := by
  rw [qadd, Rat.divInt_eq_div]
  push_cast
  conv_rhs => rw [← Rat.num_div_den a, ← Rat.num_div_den b]
  rw [div_add_div _ _ (by exact_mod_cast a.den_nz) (by exact_mod_cast b.den_nz)]
  ring_nf

theorem qmul_eq (a b : ℚ) : qmul a b = a * b := by
  rw [qmul, Rat.divInt_eq_div]
  push_cast
  conv_rhs => rw [← Rat.num_div_den a, ← Rat.num_div_den b]
  rw [div_mul_div_comm]

theorem qdiv_eq (a b : ℚ) : qdiv a b = a / b := by
  rcases eq_or_ne b 0 with hb | hb
  · subst hb
    simp [qdiv]
  · have ha : ((a.den : ℚ)) ≠ 0 := by exact_mod_cast a.den_nz
    have hbn : ((b.num : ℚ)) ≠ 0 := by exact_mod_cast Rat.num_ne_zero.mpr hb
    have hbd : ((b.den : ℚ)) ≠ 0 := by exact_mod_cast b.den_nz
    rw [qdiv, Rat.divInt_eq_div]
    push_cast
    conv_rhs => rw [← Rat.num_div_den a, ← Rat.num_div_den b]
    field_simp

theorem qsub_eq (a b : ℚ) : qsub a b = a - b := by
  rw [qsub, qadd_eq]
  ring

theorem qnat_eq (n : ℕ) : qnat n = (n : ℚ) := by
  simp [qnat, Rat.divInt_eq_div]

theorem qint_eq (n : ℤ) : qint n = (n : ℚ) := by
  simp [qint, Rat.divInt_eq_div]

/-- `NaN` absorbs on the right of `+`. -/
theorem add_nan_right (x : JSNum) : JSNum.add x JSNum.nan = JSNum.nan := by
  cases x <;> rfl

/-- `NaN` absorbs on the left of `+`. -/
theorem add_nan_left (x : JSNum) : JSNum.add JSNum.nan x = JSNum.nan := by
  cases x <;> rfl

/-- `NaN` absorbs on the left of `*`. -/
theorem mul_nan_left (x : JSNum) : JSNum.mul JSNum.nan x = JSNum.nan := by
  cases x <;> rfl

/-- A truthy `m[k]?.length` implies the key is present. -/
theorem truthyLen_isSome {α : Type} {o : Option (List α)} (h : truthyLen o = true) :
    o.isSome = true := by
  cases o
  · simp [truthyLen] at h
  · rfl

/-- `a || b` keeps a present (truthy) `a`. -/
theorem jsOr_of_truthy {α : Type} {o : Option (List α)} (h : truthyLen o = true)
    (b : Option (List α)) : jsOr o b = o := by
  cases o
  · simp [truthyLen] at h
  · rfl

/-- On well-formed maps, a present entry is a truthy entry. -/
theorem wf_truthy {α : Type} {m : TrackMap α} (hm : WFTrackMap m) (v : String) :
    truthyLen (jsLookup m v) = (jsLookup m v).isSome := by
  cases h : jsLookup m v with
  | none => rfl
  | some l =>
    obtain ⟨p, hp, hpl⟩ : ∃ p, List.find? (fun p => p.1 = v) m = some p ∧ p.2 = l := by
      unfold jsLookup at h
      cases hf : List.find? (fun p => decide (p.1 = v)) m with
      | none => rw [hf] at h; simp at h
      | some p => rw [hf] at h; simp at h; exact ⟨p, by simp [hf], h⟩
    have : p ∈ m := List.mem_of_find?_eq_some hp
    have hne : l ≠ [] := hpl ▸ hm p this
    simp [truthyLen, hne]

/-- The first loop of `findBestSubtitle`, as a `find?` over the variant
list. -/
theorem findPass1_eq_find {α : Type} (sub auto : TrackMap α) (pm : Bool)
    (vs : List String) :
    findPass1 sub auto pm vs =
      (vs.find? (fun v => cond pm (truthyLen (jsLookup sub v))
          (truthyLen (jsLookup sub v) || truthyLen (jsLookup auto v)))).map
        (fun v => cond pm (⟨jsLookup sub v, true⟩ : SubtitleChoice α)
          ⟨jsOr (jsLookup sub v) (jsLookup auto v), (jsLookup sub v).isSome⟩) := by
  induction vs with
  | nil => rfl
  | cons v rest ih =>
    cases pm with
    | true =>
      by_cases h : truthyLen (jsLookup sub v) = true
      · simp [findPass1, h, List.find?_cons_of_pos]
      · simp only [Bool.not_eq_true] at h
        simp [findPass1, h, List.find?_cons_of_neg, ih]
    | false =>
      by_cases h : (truthyLen (jsLookup sub v) || truthyLen (jsLookup auto v)) = true
      · simp [findPass1, h, List.find?_cons_of_pos]
      · simp only [Bool.not_eq_true] at h
        simp [findPass1, h, List.find?_cons_of_neg, ih]

/-- The fallback loop of `findBestSubtitle`, as a `find?` over the
variant list. -/
theorem findPass2_eq_find {α : Type} (sub auto : TrackMap α) (vs : List String) :
    findPass2 sub auto vs =
      (vs.find? (fun v => truthyLen (jsLookup sub v) || truthyLen (jsLookup auto v))).map
        (fun v => ⟨jsOr (jsLookup sub v) (jsLookup auto v), (jsLookup sub v).isSome⟩) := by
  induction vs with
  | nil => rfl
  | cons v rest ih =>
    by_cases h : (truthyLen (jsLookup sub v) || truthyLen (jsLookup auto v)) = true
    · simp [findPass2, h, List.find?_cons_of_pos]
    · simp only [Bool.not_eq_true] at h
      simp [findPass2, h, List.find?_cons_of_neg, ih]

/-- A finite result of the 3-decimal rounding is an integer multiple of
1/1000. -/
theorem jsToFixed3_num_eq {u : JSNum} {q : ℚ} (h : jsToFixed3 u = JSNum.num q) :
    ∃ n : ℤ, q = (n : ℚ) / 1000 := by
  cases u with
  | num q' =>
    refine ⟨Rat.floor (qadd (qmul q' (qnat 1000)) (Rat.divInt 1 2)), ?_⟩
    simp only [jsToFixed3, JSNum.num.injEq] at h
    rw [← h, qdiv_eq, qint_eq, qnat_eq]
    norm_num
  | nan => simp [jsToFixed3] at h
  | inf b => simp [jsToFixed3] at h

/-- Items emitted by `flushCue` have non-empty text and rounded times. -/
theorem flushCue_mem {cue : JSNum × JSNum × List Char} {it : TranscriptItem}
    (h : it ∈ flushCue cue) :
    it.text ≠ [] ∧ (∃ u, it.start = jsToFixed3 u) ∧ (∃ u, it.duration = jsToFixed3 u) := by
  obtain ⟨s, d, text⟩ := cue
  by_cases he : (trimL text).isEmpty
  · simp [flushCue, he] at h
  · simp [flushCue, he] at h
    subst h
    refine ⟨?_, ⟨s, rfl⟩, ⟨d, rfl⟩⟩
    simpa [List.isEmpty_iff] using he

/-- `stepLine` only ever appends `flushCue` output to the item list. -/
theorem stepLine_mem {acc : List TranscriptItem × Option (JSNum × JSNum × List Char)}
    {line : List Char} {it : TranscriptItem}
    (hgood : ∀ j ∈ acc.1,
      j.text ≠ [] ∧ (∃ u, j.start = jsToFixed3 u) ∧ (∃ u, j.duration = jsToFixed3 u))
    (h : it ∈ (stepLine acc line).1) :
    it.text ≠ [] ∧ (∃ u, it.start = jsToFixed3 u) ∧ (∃ u, it.duration = jsToFixed3 u) := by
  obtain ⟨items, st⟩ := acc
  cases st with
  | none =>
    simp only [stepLine] at h
    split at h
    · exact hgood it h
    · exact hgood it h
  | some cue =>
    obtain ⟨s, d, text⟩ := cue
    simp only [stepLine] at h
    split at h
    · exact hgood it h
    · split at h
      · rcases List.mem_append.mp h with h | h
        · exact hgood it h
        · exact flushCue_mem h
      · rcases List.mem_append.mp h with h | h
        · exact hgood it h
        · exact flushCue_mem h

theorem foldl_stepLine_mem :
    ∀ (lines : List (List Char)) (acc : List TranscriptItem × Option (JSNum × JSNum × List Char)),
      (∀ j ∈ acc.1,
        j.text ≠ [] ∧ (∃ u, j.start = jsToFixed3 u) ∧ (∃ u, j.duration = jsToFixed3 u)) →
      ∀ it ∈ (List.foldl stepLine acc lines).1,
        it.text ≠ [] ∧ (∃ u, it.start = jsToFixed3 u) ∧ (∃ u, it.duration = jsToFixed3 u) := by
  intro lines
  induction lines with
  | nil => intro acc hacc it h; exact hacc it h
  | cons l rest ih =>
    intro acc hacc it h
    exact ih (stepLine acc l) (fun j hj => stepLine_mem hacc hj) it h

theorem takeWhile_all {p : Char → Bool} {l : List Char} (h : ∀ c ∈ l, p c = true) :
    l.takeWhile p = l := by
  induction l with
  | nil => rfl
  | cons a as ih =>
    simp [List.takeWhile_cons, h a (List.mem_cons_self a as),
      ih (fun c hc => h c (List.mem_cons_of_mem a hc))]

/-- A needle that occurs as a prefix of a suffix is contained. -/
theorem containsSub_append {needle t : List Char} (h : needle.isPrefixOf t = true) :
    ∀ pre : List Char, containsSub needle (pre ++ t) = true := by
  intro pre
  induction pre with
  | nil =>
    cases t with
    | nil =>
      cases needle with
      | nil => rfl
      | cons a as => simp [List.isPrefixOf] at h
    | cons a as => simp [containsSub, h]
  | cons c cs ih => simp [containsSub, ih]

/-- One unfolding step of the scan. -/
theorem scanForId_cons (c : Char) (t : List Char) :
    scanForId (c :: t) =
      (match matchIdAfter "youtube.com/watch?v=".data (c :: t) with
       | some r => some r
       | none =>
         match matchIdAfter "youtu.be/".data (c :: t) with
         | some r => some r
         | none => scanForId t) := rfl

/-- Neither regex alternative can match at a position whose first
character is not `'y'`. -/
theorem scanForId_skip {c : Char} (hc : c ≠ 'y') (t : List Char) :
    scanForId (c :: t) = scanForId t := by
  have hb : ('y' == c) = false := beq_eq_false_iff_ne.mpr (Ne.symm hc)
  have e1 : List.isPrefixOf "youtube.com/watch?v=".data (c :: t) =
      (('y' == c) && List.isPrefixOf "outube.com/watch?v=".data t) := rfl
  have e2 : List.isPrefixOf "youtu.be/".data (c :: t) =
      (('y' == c) && List.isPrefixOf "outu.be/".data t) := rfl
  have h1 : matchIdAfter "youtube.com/watch?v=".data (c :: t) = none := by
    simp [matchIdAfter, e1, hb]
  have h2 : matchIdAfter "youtu.be/".data (c :: t) = none := by
    simp [matchIdAfter, e2, hb]
  rw [scanForId_cons, h1, h2]

theorem scanForId_no_y (t : List Char) :
    ∀ pre : List Char, (∀ c ∈ pre, c ≠ 'y') → scanForId (pre ++ t) = scanForId t := by
  intro pre
  induction pre with
  | nil => intro _; rfl
  | cons c cs ih =>
    intro h
    rw [List.cons_append, scanForId_skip (h c (List.mem_cons_self c cs))]
    exact ih (fun x hx => h x (List.mem_cons_of_mem c hx))

/-- The regex scan at the start of the watch-URL needle captures exactly
a non-empty identifier-character suffix. -/
theorem scanForId_watch {s : List Char} (hne : s ≠ []) (hid : ∀ c ∈ s, isIdChar c = true) :
    scanForId ("youtube.com/watch?v=".data ++ s) = some s := by
  have hpre : List.isPrefixOf "youtube.com/watch?v=".data
      ("youtube.com/watch?v=".data ++ s) = true :=
    List.isPrefixOf_iff_prefix.mpr ⟨s, rfl⟩
  have hmatch : matchIdAfter "youtube.com/watch?v=".data
      ("youtube.com/watch?v=".data ++ s) = some s := by
    rw [matchIdAfter, if_pos hpre, List.drop_left, takeWhile_all hid]
    cases s with
    | nil => exact absurd rfl hne
    | cons a as => simp
  have e : "youtube.com/watch?v=".data ++ s = 'y' :: ("outube.com/watch?v=".data ++ s) := rfl
  rw [e] at hmatch ⊢
  rw [scanForId_cons, hmatch]

/-!
## Claim theorems
-/

/-- C1: on the input `"00:00:00.000 --> 00:00:02.500\nHello <b>world</b>\n\n00:00:02.500 --> 00:00:04.000\nSecond line\n"`
the Cue Parser returns exactly the two items `{text:"Hello world",
start:0, duration:2.5}` and `{text:"Second line", start:2.5,
duration:1.5}`: angle-bracket tags deleted, lines trimmed and joined by
single spaces, and duration equal to end minus start. -/
theorem C1_cue_parser_round_trip :
    parseTranscriptContent
        "00:00:00.000 --> 00:00:02.500\nHello <b>world</b>\n\n00:00:02.500 --> 00:00:04.000\nSecond line\n".data =
      [⟨"Hello world".data, JSNum.num 0, JSNum.num (5/2)⟩,
       ⟨"Second line".data, JSNum.num (5/2), JSNum.num (3/2)⟩] := by
  have h1 : (5/2 : ℚ) = Rat.divInt 5 2 := by norm_num [Rat.divInt_eq_div]
  have h2 : (3/2 : ℚ) = Rat.divInt 3 2 := by norm_num [Rat.divInt_eq_div]
  rw [h1, h2]
  decide

/-- C2: on well-formed track maps (non-empty track lists, as the spec's
data model requires) the Language Matcher behaves exactly as the
spec-worded two-pass `specSelectTrack`: variants are tried in the order
`lang`, `lang_US`, `lang-US`, `lang.US` in a preference-respecting first
pass, and only if that finds nothing in a preference-ignoring second
pass that takes the first variant present in either map with manual
preferred; in particular `manualTracks={en_US:[...]}`, `autoTracks={}`,
`lang="en"`, `preferManual=true` selects the `en_US` manual track with
`isManual=true`. -/
theorem C2_language_matcher_two_pass :
    (∀ (α : Type) (sub auto : TrackMap α) (lang : String) (pm : Bool),
        WFTrackMap sub → WFTrackMap auto →
        findBestSubtitle sub auto lang pm =
          (match specSelectTrack sub auto lang pm with
           | some (v, m) => ⟨jsOr (jsLookup sub v) (jsLookup auto v), m⟩
           | none => ⟨none, false⟩)) ∧
    specSelectTrack [("en_US", [0])] ([] : TrackMap ℕ) "en" true = some ("en_US", true) ∧
    findBestSubtitle [("en_US", [0])] ([] : TrackMap ℕ) "en" true = ⟨some [0], true⟩ := by
  refine ⟨?_, by decide, by decide⟩
  intro α sub auto lang pm hws hwa
  rw [findBestSubtitle, findPass1_eq_find, specSelectTrack]
  cases hf : (langVariants lang).find? (fun v => cond pm (truthyLen (jsLookup sub v))
      (truthyLen (jsLookup sub v) || truthyLen (jsLookup auto v))) with
  | none =>
    simp only [Option.map_none']
    rw [findPass2_eq_find]
    cases hf2 : (langVariants lang).find?
        (fun v => truthyLen (jsLookup sub v) || truthyLen (jsLookup auto v)) with
    | none => rfl
    | some v =>
      simp only [Option.map_some']
      rw [wf_truthy hws]
  | some v =>
    have hv := List.find?_some hf
    simp only [Option.map_some']
    cases pm with
    | true =>
      simp only [cond_true] at hv ⊢
      rw [jsOr_of_truthy hv]
    | false =>
      simp only [cond_false] at hv ⊢
      rw [wf_truthy hws]

/-- C2 witness: the equivalence applied at concrete maps. -/
theorem C2_language_matcher_two_pass_witness :
    findBestSubtitle [("en", [0])] [("en", [1])] "en" false =
      (match specSelectTrack [("en", [0])] [("en", [1])] "en" false with
       | some (v, m) => ⟨jsOr (jsLookup [("en", [0])] v) (jsLookup [("en", [1])] v), m⟩
       | none => ⟨none, false⟩) :=
  C2_language_matcher_two_pass.1 ℕ [("en", [0])] [("en", [1])] "en" false
    (by decide) (by decide)

/-- C3: the Time Parser computes `(+h)*3600 + (+m)*60 + parseFloat(s)`
for three colon-separated fields, `(+m)*60 + parseFloat(s)` for two, and
a direct `parseFloat` for a single field; in particular
`parseTimestamp("01:02:03.500") = 3723.5`,
`parseTimestamp("02:03.250") = 123.25`, and
`parseTimestamp("5.5") = 5.5`. -/
theorem C3_timeToSeconds_fields :
    (∀ ts hh mm ss : List Char, splitCh ':' ts = [hh, mm, ss] →
        timeToSeconds ts =
          JSNum.add (JSNum.add (JSNum.mul (toNumber hh) (JSNum.num (qnat 3600)))
              (JSNum.mul (toNumber mm) (JSNum.num (qnat 60)))) (parseFloat ss)) ∧
    (∀ ts mm ss : List Char, splitCh ':' ts = [mm, ss] →
        timeToSeconds ts =
          JSNum.add (JSNum.mul (toNumber mm) (JSNum.num (qnat 60))) (parseFloat ss)) ∧
    (∀ ts : List Char, (splitCh ':' ts).length = 1 → timeToSeconds ts = parseFloat ts) ∧
    timeToSeconds "01:02:03.500".data = JSNum.num (7447/2) ∧
    timeToSeconds "02:03.250".data = JSNum.num (493/4) ∧
    timeToSeconds "5.5".data = JSNum.num (11/2) := by
  refine ⟨?_, ?_, ?_, ?_, ?_, ?_⟩
  · intro ts hh mm ss h
    simp [timeToSeconds, h]
  · intro ts mm ss h
    simp [timeToSeconds, h]
  · intro ts h
    simp [timeToSeconds, h]
  · have h : (7447/2 : ℚ) = Rat.divInt 7447 2 := by norm_num [Rat.divInt_eq_div]
    rw [h]; decide
  · have h : (493/4 : ℚ) = Rat.divInt 493 4 := by norm_num [Rat.divInt_eq_div]
    rw [h]; decide
  · have h : (11/2 : ℚ) = Rat.divInt 11 2 := by norm_num [Rat.divInt_eq_div]
    rw [h]; decide

/-- C3 witness: the three-field formula applied at `"01:02:03.500"`. -/
theorem C3_timeToSeconds_fields_witness :
    timeToSeconds "01:02:03.500".data =
      JSNum.add (JSNum.add (JSNum.mul (toNumber "01".data) (JSNum.num (qnat 3600)))
          (JSNum.mul (toNumber "02".data) (JSNum.num (qnat 60)))) (parseFloat "03.500".data) :=
  C3_timeToSeconds_fields.1 "01:02:03.500".data "01".data "02".data "03.500".data (by decide)

/-- C4 counterexample: the claim says a non-numeric hours/minutes field
contributes `0`, so `timeToSeconds("xx:03")` would be `3`; the code's
unary `+` turns `"xx"` into `NaN`, which propagates, so the result is
`NaN`, not `3`. -/
theorem C4_time_parser_malformed_counterexample :
    timeToSeconds "xx:03".data = JSNum.nan ∧ JSNum.nan ≠ JSNum.num 3 := by
  constructor
  · decide
  · decide

/-- C4 amended: a non-numeric (non-whitespace) integer field coerces to
`NaN` and makes the whole result `NaN` (it does not contribute `0`); an
empty or whitespace-only integer field coerces to `0`; an unparseable
fractional-seconds field yields `NaN`; the function is total (it never
raises and always returns a JS number, possibly `NaN`). -/
theorem C4_time_parser_malformed_amended :
    (∀ ts hh mm ss : List Char, splitCh ':' ts = [hh, mm, ss] →
        toNumber hh = JSNum.nan ∨ toNumber mm = JSNum.nan ∨ parseFloat ss = JSNum.nan →
        timeToSeconds ts = JSNum.nan) ∧
    (∀ ts mm ss : List Char, splitCh ':' ts = [mm, ss] →
        toNumber mm = JSNum.nan ∨ parseFloat ss = JSNum.nan →
        timeToSeconds ts = JSNum.nan) ∧
    (∀ s : List Char, trimL s = [] → toNumber s = JSNum.num 0) ∧
    timeToSeconds "  :03".data = JSNum.num 3 ∧
    timeToSeconds "01:02:xx".data = JSNum.nan := by
  refine ⟨?_, ?_, ?_, by decide, by decide⟩
  · intro ts hh mm ss h hn
    rcases hn with hn | hn | hn <;>
      simp [timeToSeconds, h, hn, mul_nan_left, add_nan_left, add_nan_right]
  · intro ts mm ss h hn
    rcases hn with hn | hn <;>
      simp [timeToSeconds, h, hn, mul_nan_left, add_nan_left, add_nan_right]
  · intro s h
    simp [toNumber, h]

/-- C4 witness: the NaN-propagation clause applied at `"xx:03:00"`. -/
theorem C4_time_parser_malformed_witness :
    timeToSeconds "xx:03:00".data = JSNum.nan :=
  C4_time_parser_malformed_amended.1 "xx:03:00".data "xx".data "03".data "00".data
    (by decide) (Or.inl (by decide))

/-- C5 counterexample: the claim says only the first whitespace-delimited
token of the trailing half reaches the Time Parser, which here would give
`end = 2` and `duration = 1`; the code feeds the whole trailing half
`"00:00:02.000 align:start"`, whose 4-way colon split falls back to
`parseFloat` of the full string (` = 0`), so the emitted duration is
`-1`. -/
theorem C5_end_timestamp_token_counterexample :
    parseTranscriptContent "00:00:01.000 --> 00:00:02.000 align:start\nHi\n".data =
        [⟨"Hi".data, JSNum.num 1, JSNum.num (-1)⟩] ∧
    jsToFixed3 (JSNum.sub (timeToSeconds "00:00:02.000".data)
        (timeToSeconds "00:00:01.000".data)) = JSNum.num 1 ∧
    JSNum.num (-1) ≠ JSNum.num 1 := by
  refine ⟨by decide, by decide, by decide⟩

/-- C5 amended: the Cue Parser feeds the entire trailing half of the
`" --> "` split — including any trailing cue-settings text — to the Time
Parser for the end timestamp; no first-token extraction happens. -/
theorem C5_end_timestamp_token_amended :
    (∀ line s e : List Char, splitArrow line = [s, e] →
        startCueOf line = (timeToSeconds s, JSNum.sub (timeToSeconds e) (timeToSeconds s), [])) ∧
    startCueOf (trimL "00:00:01.000 --> 00:00:02.000 align:start".data) =
      (timeToSeconds "00:00:01.000".data,
       JSNum.sub (timeToSeconds "00:00:02.000 align:start".data)
         (timeToSeconds "00:00:01.000".data),
       []) := by
  constructor
  · intro line s e h
    simp [startCueOf, h]
  · decide

/-- C5 witness: the split clause applied at the cue-settings line. -/
theorem C5_end_timestamp_token_witness :
    startCueOf "00:00:01.000 --> 00:00:02.000 align:start".data =
      (timeToSeconds "00:00:01.000".data,
       JSNum.sub (timeToSeconds "00:00:02.000 align:start".data)
         (timeToSeconds "00:00:01.000".data),
       []) :=
  C5_end_timestamp_token_amended.1 "00:00:01.000 --> 00:00:02.000 align:start".data
    "00:00:01.000".data "00:00:02.000 align:start".data (by decide)

/-- C6 counterexample: the claim quantifies over every variant with
entries in both maps, but when an earlier variant already has a track,
selection stops there: with `manualTracks={en_US:[...]}`,
`autoTracks={en:[...], en_US:[...]}`, `lang="en"`, `preferManual=false`,
the variant `en_US` has non-empty entries in both maps, yet the
automatic `en` track is selected with `isManual=false`. -/
theorem C6_preference_override_counterexample :
    truthyLen (jsLookup [("en_US", [0])] "en_US") = true ∧
    truthyLen (jsLookup [("en", [1]), ("en_US", [2])] "en_US") = true ∧
    findBestSubtitle [("en_US", [0])] [("en", [1]), ("en_US", [2])] "en" false =
      ⟨some [1], false⟩ := by
  refine ⟨by decide, by decide, by decide⟩

/-- C6 amended: for the first variant (in variant order) that has any
track available, if both maps have a non-empty entry there, selection
with `preferManual=false` picks the manual track and reports
`isManual=true`; the concrete `manualTracks={en:[...]}`,
`autoTracks={en:[...]}`, `lang="en"`, `preferManual=false` case is an
instance. -/
theorem C6_preference_override_amended :
    ∀ (α : Type) (sub auto : TrackMap α) (lang : String) (pre : List String)
      (v : String) (post : List String),
      langVariants lang = pre ++ v :: post →
      (∀ w ∈ pre, truthyLen (jsLookup sub w) = false ∧ truthyLen (jsLookup auto w) = false) →
      truthyLen (jsLookup sub v) = true →
      truthyLen (jsLookup auto v) = true →
      findBestSubtitle sub auto lang false = ⟨jsLookup sub v, true⟩ := by
  intro α sub auto lang pre v post hsplit hpre hsv hav
  have hfind : (langVariants lang).find?
      (fun w => cond false (truthyLen (jsLookup sub w))
        (truthyLen (jsLookup sub w) || truthyLen (jsLookup auto w))) = some v := by
    rw [hsplit, List.find?_append]
    have h1 : pre.find? (fun w => cond false (truthyLen (jsLookup sub w))
        (truthyLen (jsLookup sub w) || truthyLen (jsLookup auto w))) = none := by
      rw [List.find?_eq_none]
      intro w hw
      simp [cond_false, (hpre w hw).1, (hpre w hw).2]
    rw [h1]
    simp [List.find?_cons_of_pos, cond_false, hsv]
  rw [findBestSubtitle, findPass1_eq_find, hfind]
  simp only [Option.map_some', cond_false]
  have hs : (jsLookup sub v).isSome = true := truthyLen_isSome hsv
  rw [jsOr_of_truthy hsv]
  cases h : jsLookup sub v with
  | none => rw [h] at hs; simp at hs
  | some l => simp

/-- C6 witness: the amended statement at the concrete preference-override
maps of the claim. -/
theorem C6_preference_override_witness :
    findBestSubtitle [("en", [5])] [("en", [6])] "en" false =
      ⟨jsLookup [("en", [5])] "en", true⟩ :=
  C6_preference_override_amended ℕ [("en", [5])] [("en", [6])] "en" [] "en"
    ["en_US", "en-US", "en.US"] (by decide) (by simp) (by decide) (by decide)

/-- C7: when no variant of the requested language has a track in either
map, selection returns null whatever the preference flag is, and the
operation fails with the no-transcript error that names the requested
language and appends `getAvailableLanguages`, which lists the manual-map
keys followed by the auto-map keys exactly as enumerated — a plain
concatenation that keeps duplicates (`"en, en"` for maps sharing the
key `en`). -/
theorem C7_no_transcript_error :
    (∀ (α : Type) (sub auto : TrackMap α) (lang : String) (pm : Bool),
        (∀ v ∈ langVariants lang,
          truthyLen (jsLookup sub v) = false ∧ truthyLen (jsLookup auto v) = false) →
        findBestSubtitle sub auto lang pm = ⟨none, false⟩) ∧
    (∀ (α : Type) (meta : VideoMeta α)
        (fetchSubs : List Char → String → Bool → Except String (List Char)) (p : ItemParams),
        (trimL p.videoId).isEmpty = false →
        (∀ v ∈ langVariants p.lang,
          truthyLen (jsLookup meta.subtitles v) = false ∧
          truthyLen (jsLookup meta.automatic_captions v) = false) →
        executeItem (fun _ => Except.ok meta) fetchSubs p =
          Except.error ("No transcript found for this video with language \"" ++ p.lang
            ++ "\". Available languages: "
            ++ getAvailableLanguages meta.subtitles meta.automatic_captions)) ∧
    (∀ (α : Type) (sub auto : TrackMap α),
        sub.map (fun q => q.1) ++ auto.map (fun q => q.1) ≠ [] →
        getAvailableLanguages sub auto =
          joinComma (sub.map (fun q => q.1) ++ auto.map (fun q => q.1))) ∧
    getAvailableLanguages [("en", [0])] [("en", [1])] = "en, en" := by
  have hnone : ∀ (α : Type) (sub auto : TrackMap α) (lang : String) (pm : Bool),
      (∀ v ∈ langVariants lang,
        truthyLen (jsLookup sub v) = false ∧ truthyLen (jsLookup auto v) = false) →
      findBestSubtitle sub auto lang pm = ⟨none, false⟩ := by
    intro α sub auto lang pm h
    have h1 : (langVariants lang).find?
        (fun v => cond pm (truthyLen (jsLookup sub v))
          (truthyLen (jsLookup sub v) || truthyLen (jsLookup auto v))) = none := by
      rw [List.find?_eq_none]
      intro v hv
      cases pm <;> simp [(h v hv).1, (h v hv).2]
    have h2 : (langVariants lang).find?
        (fun v => truthyLen (jsLookup sub v) || truthyLen (jsLookup auto v)) = none := by
      rw [List.find?_eq_none]
      intro v hv
      simp [(h v hv).1, (h v hv).2]
    rw [findBestSubtitle, findPass1_eq_find, h1, findPass2_eq_find, h2]
    rfl
  refine ⟨hnone, ?_, ?_, by decide⟩
  · intro α meta fetchSubs p hv h
    have hsel := hnone α meta.subtitles meta.automatic_captions p.lang p.preferManual h
    simp [executeItem, hv, hsel]
  · intro α sub auto h
    have hlen : 0 < (sub.map (fun q => q.1) ++ auto.map (fun q => q.1)).length :=
      List.length_pos.mpr h
    simp [getAvailableLanguages, hlen]
    intro h1 h2
    rw [h1, h2] at h
    simp at h

/-- C7 witness: the error path at concrete maps that share the key
`fr`, requesting `en`. -/
theorem C7_no_transcript_error_witness :
    executeItem (fun _ => Except.ok (⟨[("fr", [1])], [("fr", [2])]⟩ : VideoMeta ℕ))
        (fun _ _ _ => Except.error "")
        ⟨"abc".data, "en", true, OutputFormat.structured⟩ =
      Except.error ("No transcript found for this video with language \"" ++ "en"
        ++ "\". Available languages: "
        ++ getAvailableLanguages [("fr", [1])] [("fr", [2])]) :=
  C7_no_transcript_error.2.1 ℕ ⟨[("fr", [1])], [("fr", [2])]⟩
    (fun _ _ _ => Except.error "")
    ⟨"abc".data, "en", true, OutputFormat.structured⟩ (by decide) (by decide)

/-- C8: every item the Cue Parser emits has non-empty cleaned text, and
its start and duration are results of the 3-decimal rounding (finite
values are integer multiples of 1/1000) regardless of the precision of
the input timestamps; a timing line followed only by markup-only lines
yields no item. -/
theorem C8_rounding_and_empty_cue :
    (∀ (content : List Char), ∀ it ∈ parseTranscriptContent content,
        it.text ≠ [] ∧
        (∃ u, it.start = jsToFixed3 u) ∧ (∃ u, it.duration = jsToFixed3 u) ∧
        (∀ q, it.start = JSNum.num q → ∃ n : ℤ, q = (n : ℚ) / 1000) ∧
        (∀ q, it.duration = JSNum.num q → ∃ n : ℤ, q = (n : ℚ) / 1000)) ∧
    parseTranscriptContent "00:00:00.000 --> 00:00:02.500\n<c></c>\n".data = [] := by
  constructor
  · intro content it h
    have hg : it.text ≠ [] ∧ (∃ u, it.start = jsToFixed3 u) ∧
        (∃ u, it.duration = jsToFixed3 u) := by
      rw [parseTranscriptContent] at h
      rcases hst : (List.foldl stepLine ([], none) (splitCh '\n' content)) with ⟨items, st⟩
      rw [hst] at h
      have hfold := foldl_stepLine_mem (splitCh '\n' content) ([], none) (by simp)
      rw [hst] at hfold
      cases st with
      | none => exact hfold it h
      | some cue =>
        simp only [List.mem_append] at h
        rcases h with h | h
        · exact hfold it h
        · exact flushCue_mem h
    obtain ⟨h1, ⟨u1, h2⟩, ⟨u2, h3⟩⟩ := hg
    refine ⟨h1, ⟨u1, h2⟩, ⟨u2, h3⟩, ?_, ?_⟩
    · intro q hq
      exact jsToFixed3_num_eq (h2.symm.trans hq)
    · intro q hq
      exact jsToFixed3_num_eq (h3.symm.trans hq)
  · decide

/-- C8 witness: the invariant at the first item of the C1 input. -/
theorem C8_rounding_and_empty_cue_witness :
    (⟨"Hello world".data, JSNum.num 0, JSNum.num (Rat.divInt 5 2)⟩ : TranscriptItem).text ≠ [] ∧
    (∃ u, (⟨"Hello world".data, JSNum.num 0,
        JSNum.num (Rat.divInt 5 2)⟩ : TranscriptItem).start = jsToFixed3 u) ∧
    (∃ u, (⟨"Hello world".data, JSNum.num 0,
        JSNum.num (Rat.divInt 5 2)⟩ : TranscriptItem).duration = jsToFixed3 u) ∧
    (∀ q, (⟨"Hello world".data, JSNum.num 0,
        JSNum.num (Rat.divInt 5 2)⟩ : TranscriptItem).start = JSNum.num q →
      ∃ n : ℤ, q = (n : ℚ) / 1000) ∧
    (∀ q, (⟨"Hello world".data, JSNum.num 0,
        JSNum.num (Rat.divInt 5 2)⟩ : TranscriptItem).duration = JSNum.num q →
      ∃ n : ℤ, q = (n : ℚ) / 1000) :=
  C8_rounding_and_empty_cue.1
    "00:00:00.000 --> 00:00:02.500\nHello <b>world</b>\n\n00:00:02.500 --> 00:00:04.000\nSecond line\n".data
    ⟨"Hello world".data, JSNum.num 0, JSNum.num (Rat.divInt 5 2)⟩ (by decide)

/-- C9: an input item whose video reference trims to the empty string is
rejected with the invalid-input error before any collaborator is
consulted: the result is the same error for every metadata and subtitle
oracle. -/
theorem C9_blank_video_ref :
    ∀ (α : Type) (getMeta : List Char → Except String (VideoMeta α))
      (fetchSubs : List Char → String → Bool → Except String (List Char)) (p : ItemParams),
      (trimL p.videoId).isEmpty = true →
      executeItem getMeta fetchSubs p =
        Except.error "The video ID/URL parameter is empty." := by
  intro α getMeta fetchSubs p h
  simp [executeItem, h]

/-- C9 witness: a whitespace-only reference with failing oracles. -/
theorem C9_blank_video_ref_witness :
    executeItem (fun _ => (Except.error "m" : Except String (VideoMeta ℕ)))
        (fun _ _ _ => Except.error "s")
        ⟨" ".data, "en", true, OutputFormat.structured⟩ =
      Except.error "The video ID/URL parameter is empty." :=
  C9_blank_video_ref ℕ (fun _ => Except.error "m") (fun _ _ _ => Except.error "s")
    ⟨" ".data, "en", true, OutputFormat.structured⟩ (by decide)

/-- C10: for every non-empty string of identifier characters (letters,
digits, underscore, hyphen) containing neither `youtube.com` nor
`youtu.be`, normalizing to the canonical watch URL and then extracting
the identifier round-trips to the original string. -/
theorem C10_id_round_trip :
    ∀ s : List Char, s ≠ [] → (∀ c ∈ s, isIdChar c = true) →
      containsSub "youtube.com".data s = false → containsSub "youtu.be".data s = false →
      extractVideoId (normalizeVideoUrl s) = s := by
  intro s hne hid h1 h2
  have hurl : normalizeVideoUrl s = "https://www.youtube.com/watch?v=".data ++ s := by
    simp [normalizeVideoUrl, h1, h2]
  have hsplit : "https://www.youtube.com/watch?v=".data ++ s =
      "https://www.".data ++ ("youtube.com".data ++ ("/watch?v=".data ++ s)) := by
    rfl
  have hcont : containsSub "youtube.com".data
      ("https://www.youtube.com/watch?v=".data ++ s) = true := by
    rw [hsplit]
    exact containsSub_append (List.isPrefixOf_iff_prefix.mpr ⟨_, rfl⟩) _
  have hsplit2 : "https://www.youtube.com/watch?v=".data ++ s =
      "https://www.".data ++ ("youtube.com/watch?v=".data ++ s) := by
    rfl
  have hscan : scanForId ("https://www.youtube.com/watch?v=".data ++ s) = some s := by
    rw [hsplit2, scanForId_no_y _ _ (by decide), scanForId_watch hne hid]
  rw [hurl, extractVideoId, if_pos (by rw [hcont, Bool.true_or]), hscan]

/-- C10 witness: the round trip at the identifier `dQw4w9WgXcQ`. -/
theorem C10_id_round_trip_witness :
    extractVideoId (normalizeVideoUrl "dQw4w9WgXcQ".data) = "dQw4w9WgXcQ".data :=
  C10_id_round_trip "dQw4w9WgXcQ".data (by decide) (by decide) (by decide) (by decide)

end YT
